import Mathlib

/-!
Verification of the 104 job-board fetch-and-normalize pipeline (`app.py`).

The development shallowly embeds the two core functions of the source,
`fetch_104_jobs` and `parse_salary`, together with the consumer-side
region-code derivation (`lambda x: x[:3]`) and skill tokenization
(`skills.split(',')`).  Python strings are modelled as Lean `String`
(sequences of code points, matching Python's per-character slicing);
Python `None` for a missing dictionary value is modelled with `Option`;
a raised exception during record processing is modelled by `Option`
(`none` = the expression raises); Python's true division on integers is
modelled exactly in `ℚ`.
-/

namespace App104

/-! ### Python string primitives -/

/-- Boolean prefix test on character lists (helper for substring search). -/
def isPrefixOfB : List Char → List Char → Bool
  | [], _ => true
  | _ :: _, [] => false
  | a :: as, b :: bs => a = b && isPrefixOfB as bs

/-- Boolean substring test on character lists: `containsSub sub l` is true
iff `sub` occurs contiguously in `l` (Python's `sub in l`). -/
def containsSub (sub : List Char) : List Char → Bool
  | [] => isPrefixOfB sub []
  | c :: rest => isPrefixOfB sub (c :: rest) || containsSub sub rest

/-- Python's `sub in s` membership test on strings. -/
def pyContains (s sub : String) : Bool :=
  containsSub sub.data s.data

/-- Python's `s[:n]` slice: the first `n` characters (code points) of `s`. -/
def pySlice (s : String) (n : Nat) : String :=
  ⟨s.data.take n⟩

/-- Python's `s.replace(",", "")`: since the pattern is the single
character `,`, this removes every comma. -/
def removeCommas (s : String) : String :=
  ⟨s.data.filter (fun c => c ≠ ',')⟩

/-- Python's `str(x)` on an optional string: `None` prints as `"None"`. -/
def pyStr : Option String → String
  | none => "None"
  | some s => s

/-! ### `parse_salary` (app.py lines 89–109) -/

/-- Maximal digit runs, accumulator version: `acc` holds the current run
reversed.  Embeds `re.findall(r'\d+', clean_str)` (digits taken as `0`–`9`). -/
def digitRunsAux : List Char → List Char → List (List Char)
  | [], acc => if acc.isEmpty then [] else [acc.reverse]
  | c :: rest, acc =>
    if c.isDigit then digitRunsAux rest (c :: acc)
    else if acc.isEmpty then digitRunsAux rest []
    else acc.reverse :: digitRunsAux rest []

/-- All maximal digit runs of a character list, left to right. -/
def digitRuns (cs : List Char) : List (List Char) :=
  digitRunsAux cs []

/-- Python's `int` on a digit string, as a fold. -/
def runVal (run : List Char) : Nat :=
  run.foldl (fun acc c => acc * 10 + (c.toNat - '0'.toNat)) 0

/-- Embeds `parse_salary` (app.py lines 89–109): negotiable marker `面議`
and hourly/daily markers `時薪`/`日薪` yield `None`; otherwise commas are
removed, all digit runs are extracted, two runs give their mean under
Python's true division (exact in `ℚ`), one run gives its value, any other
count gives `None`. -/
def parse_salary (salary_str : String) : Option ℚ :=
  if pyContains salary_str "面議" then none
  else if pyContains salary_str "時薪" || pyContains salary_str "日薪" then none
  else
    match digitRuns (removeCommas salary_str).data with
    | [a, b] => some (((runVal a : ℚ) + (runVal b : ℚ)) / 2)
    | [a] => some ((runVal a : ℚ))
    | _ => none

/-- All three early-return markers of `parse_salary` combined. -/
def hasMarker (s : String) : Bool :=
  pyContains s "面議" || pyContains s "時薪" || pyContains s "日薪"

/-! ### Data model of `fetch_104_jobs` (app.py lines 23–86)

A raw record is a JSON object; each field of interest is `Option`-valued
(`none` = key absent).  `description` is doubly optional: the outer level
is key presence (`.get("description", "")` defaults to `""`), the inner
level is JSON `null` (on which Python's `None[:100]` raises `TypeError`).
Each `specialty` entry is the optional `description` field of the
descriptor object (`s['description']` raises `KeyError` when absent).
The `link` object is a string-keyed dictionary, modelled as an
association list; Python truthiness of a dictionary is non-emptiness. -/

/-- One raw job record from `data.list`. -/
structure RawJob where
  jobName : Option String
  custName : Option String
  jobAddrNoDesc : Option String
  salaryDesc : Option String
  optionEdu : Option String
  periodDesc : Option String
  specialty : Option (List (Option String))
  description : Option (Option String)
  link : Option (List (String × String))
deriving DecidableEq

/-- One normalized listing (the `job_info` dictionary, app.py lines 63–73):
the dictionary literal always contains all nine keys, so every field is
structurally present; `title`/`company`/… are `Option` because
`job.get(...)` with no default stores Python `None` when the key is absent. -/
structure Listing where
  title : Option String
  company : Option String
  region : Option String
  salaryText : Option String
  education : Option String
  experience : Option String
  skillsText : String
  descriptionPreview : String
  url : String
deriving DecidableEq

/-- Python `dict.get(k)` on the association-list model. -/
def dictGet (d : List (String × String)) (k : String) : Option String :=
  (d.find? (fun p => p.1 = k)).map (fun p => p.2)

/-- The descriptions of all specialty entries;
`none` when some entry lacks its `description` key
(`[s['description'] for s in specialties]` raises `KeyError`). -/
def descList : List (Option String) → Option (List String)
  | [] => some []
  | none :: _ => none
  | some d :: rest => (descList rest).map (fun l => d :: l)

/-- Python's `",".join(l)`. -/
def joinComma : List String → String
  | [] => ""
  | [s] => s
  | s :: rest => s ++ "," ++ joinComma rest

/-- Embeds `",".join([s['description'] for s in specialties]) if specialties
else "不拘"` (app.py line 61): the comprehension only runs when the list is
non-empty (truthy). -/
def skill_str (specialties : List (Option String)) : Option String :=
  match specialties with
  | [] => some "不拘"
  | _ => (descList specialties).map joinComma

/-- Embeds `job.get("description", "")` followed by the `[:100]` slice's
demand for a string: absent key defaults to `""`, a present `null` makes
`None[:100]` raise (`none` result). -/
def getDesc : Option (Option String) → Option String
  | none => some ""
  | some none => none
  | some (some d) => some d

/-- Builds one `job_info` record (app.py lines 58–74); `none` means the
record's processing raised an exception. -/
def buildListing (job : RawJob) : Option Listing :=
  match skill_str (job.specialty.getD []) with
  | none => none
  | some sk =>
    match getDesc job.description with
    | none => none
    | some d =>
      some
        { title := job.jobName
          company := job.custName
          region := job.jobAddrNoDesc
          salaryText := job.salaryDesc
          education := job.optionEdu
          experience := job.periodDesc
          skillsText := sk
          descriptionPreview := pySlice d 100 ++ "..."
          url :=
            match job.link with
            | none => ""
            | some dict =>
              if dict.isEmpty then ""
              else "https:" ++ pyStr (dictGet dict "job") }

/-- Processes the records of one page in order (the `for job in jobs` loop,
app.py lines 58–74): returns the listings appended before the first raising
record, and whether the whole page processed without an exception. -/
def processRecords : List RawJob → List Listing × Bool
  | [] => ([], true)
  | j :: rest =>
    match buildListing j with
    | none => ([], false)
    | some li =>
      let r := processRecords rest
      (li :: r.1, r.2)

/-- The response the remote endpoint gives for one page request:
`err` models `requests.get`/`response.json()` raising; otherwise the JSON
body, where the outer `Option` is the presence of the `"data"` key and the
inner one the presence of `"list"`. -/
inductive PageResp where
  | err : PageResp
  | resp : Option (Option (List RawJob)) → PageResp
deriving DecidableEq

/-- The observable outcome of one fetch run: the accumulated listings, the
pages actually requested in order, and whether `st.error` was shown
(the `except` branch ran). -/
structure FetchResult where
  listings : List Listing
  requested : List Nat
  errorShown : Bool
deriving DecidableEq

/-- The page loop of `fetch_104_jobs` (app.py lines 34–82), with `c`
iterations remaining and `page` the next page number.  Per iteration: the
request is issued; a raised retrieval error shows an error and breaks; a
missing `data`/`list` key or an empty list breaks silently; otherwise the
records are processed in order, and an exception inside the record loop
keeps the listings appended so far, shows an error and breaks. -/
def fetchPages (oracle : Nat → PageResp) : Nat → Nat → FetchResult
  | 0, _ => ⟨[], [], false⟩
  | c + 1, page =>
    match oracle page with
    | PageResp.err => ⟨[], [page], true⟩
    | PageResp.resp none => ⟨[], [page], false⟩
    | PageResp.resp (some none) => ⟨[], [page], false⟩
    | PageResp.resp (some (some l)) =>
      if l = [] then ⟨[], [page], false⟩
      else
        if (processRecords l).2 then
          let rest := fetchPages oracle c (page + 1)
          ⟨(processRecords l).1 ++ rest.listings, page :: rest.requested,
            rest.errorShown⟩
        else ⟨(processRecords l).1, [page], true⟩

/-- Embeds `fetch_104_jobs(keyword, pages)`: iterates pages `1..pages`
against the endpoint behaviour `oracle` and returns the accumulated
listings (the keyword only parametrizes the request, so it is folded into
the oracle). -/
def fetch_104_jobs (oracle : Nat → PageResp) (pages : Nat) : FetchResult :=
  fetchPages oracle pages 1

/-- The listings page `k` contributes when its processing is reached. -/
def pageListings (oracle : Nat → PageResp) (k : Nat) : List Listing :=
  match oracle k with
  | PageResp.resp (some (some l)) => (processRecords l).1
  | _ => []

/-- Listings of the `j` consecutive pages starting at page `p`. -/
def listingsUpTo (oracle : Nat → PageResp) : Nat → Nat → List Listing
  | _, 0 => []
  | p, j + 1 => pageListings oracle p ++ listingsUpTo oracle (p + 1) j

/-- The page numbers `p, p+1, …, p+j-1`. -/
def pageRange : Nat → Nat → List Nat
  | _, 0 => []
  | p, j + 1 => p :: pageRange (p + 1) j

/-- Page `k` responds with a non-empty record list that processes without
an exception (pagination proceeds past it). -/
def goodPage (oracle : Nat → PageResp) (k : Nat) : Prop :=
  ∃ l, oracle k = PageResp.resp (some (some l)) ∧ l ≠ [] ∧
    (processRecords l).2 = true

/-! ### Consumer-side derivations -/

/-- The region-code derivation `lambda x: x[:3]` (app.py line 133). -/
def regionCode (x : String) : String :=
  pySlice x 3

/-- Python's `s.split(',')`, accumulator version. -/
def splitCommaAux : List Char → List Char → List String
  | [], acc => [⟨acc.reverse⟩]
  | c :: rest, acc =>
    if c = ',' then (⟨acc.reverse⟩ : String) :: splitCommaAux rest []
    else splitCommaAux rest (c :: acc)

/-- Python's `s.split(',')`. -/
def pySplitComma (s : String) : List String :=
  splitCommaAux s.data []

/-- The skill tokens one listing contributes (app.py lines 186–188):
`skills.split(',')` when `skills` is truthy and not the sentinel. -/
def splitSkills (skills : String) : List String :=
  if skills = "" ∨ skills = "不拘" then [] else pySplitComma skills

/-! ### Concrete records and endpoint behaviours -/

/-- A fully populated raw record that processes without an exception. -/
def okJob : RawJob where
  jobName := some "資料工程師"
  custName := some "範例公司"
  jobAddrNoDesc := some "台北市信義區"
  salaryDesc := some "月薪30,000~50,000元"
  optionEdu := some "大學"
  periodDesc := some "1年以上"
  specialty := some [some "Python", some "SQL"]
  description := some (some "負責資料處理")
  link := some [("job", "//www.104.com.tw/job/abcde")]

/-- A record whose `description` key is present but `null`: building it
raises `TypeError` on `None[:100]`. -/
def badJob : RawJob :=
  { okJob with description := some none }

/-- A record with every optional field absent. -/
def emptyJob : RawJob where
  jobName := none
  custName := none
  jobAddrNoDesc := none
  salaryDesc := none
  optionEdu := none
  periodDesc := none
  specialty := none
  description := none
  link := none

/-- A record whose `link` object is present and truthy but has no
`job` key. -/
def noJobLinkJob : RawJob :=
  { emptyJob with link := some [("linkType", "company")] }

/-- A description of 101 characters. -/
def longDesc : String :=
  ⟨List.replicate 101 'a'⟩

/-- A record with a 101-character description. -/
def longDescJob : RawJob :=
  { okJob with description := some (some longDesc) }

/-- Endpoint where page 2 answers with an empty `data.list`. -/
def oracleEmptyPage2 : Nat → PageResp
  | 2 => PageResp.resp (some (some []))
  | _ => PageResp.resp (some (some [okJob]))

/-- Endpoint where the request for page 2 raises. -/
def oracleErrPage2 : Nat → PageResp
  | 2 => PageResp.err
  | _ => PageResp.resp (some (some [okJob]))

/-- Endpoint where page 2 holds a record that raises mid-processing. -/
def oracleBadPage2 : Nat → PageResp
  | 2 => PageResp.resp (some (some [okJob, badJob, okJob]))
  | _ => PageResp.resp (some (some [okJob]))

/-! ### Helper lemmas -/

/-- `parse_salary` on a marker-free string is determined by the digit runs
of the comma-stripped text. -/
theorem parse_salary_eval (s : String) (hm : hasMarker s = false) :
    parse_salary s =
      match digitRuns (removeCommas s).data with
      | [a, b] => some (((runVal a : ℚ) + (runVal b : ℚ)) / 2)
      | [a] => some ((runVal a : ℚ))
      | _ => none := by
  have h1 : pyContains s "面議" = false := by
    simp only [hasMarker, Bool.or_eq_false_iff] at hm; exact hm.1.1
  have h2 : pyContains s "時薪" = false := by
    simp only [hasMarker, Bool.or_eq_false_iff] at hm; exact hm.1.2
  have h3 : pyContains s "日薪" = false := by
    simp only [hasMarker, Bool.or_eq_false_iff] at hm; exact hm.2
  simp [parse_salary, h1, h2, h3]

/-- `parse_salary` returns `none` whenever any early-return marker occurs. -/
theorem parse_salary_of_marker (s : String) (hm : hasMarker s = true) :
    parse_salary s = none := by
  simp only [hasMarker, Bool.or_eq_true] at hm
  rcases hm with (h | h) | h
  · simp [parse_salary, h]
  · cases h1 : pyContains s "面議" <;> simp [parse_salary, h1, h]
  · cases h1 : pyContains s "面議" <;> simp [parse_salary, h1, h]

/-- Peeling lemma: pagination over `j` consecutive good pages accumulates
their listings and page numbers and continues at page `p + j`. -/
theorem fetchPages_peel (oracle : Nat → PageResp) :
    ∀ (j c p : Nat), (∀ k, p ≤ k → k < p + j → goodPage oracle k) → j ≤ c →
      fetchPages oracle c p =
        ⟨listingsUpTo oracle p j ++ (fetchPages oracle (c - j) (p + j)).listings,
         pageRange p j ++ (fetchPages oracle (c - j) (p + j)).requested,
         (fetchPages oracle (c - j) (p + j)).errorShown⟩
  | 0, c, p, _, _ => by simp [listingsUpTo, pageRange]
  | j + 1, c, p, hgood, hjc => by
    obtain ⟨l, hl, hne, hok⟩ := hgood p (le_refl p) (by omega)
    obtain ⟨c', rfl⟩ : ∃ c', c = c' + 1 := ⟨c - 1, by omega⟩
    have ih := fetchPages_peel oracle j c' (p + 1)
      (fun k hk1 hk2 => hgood k (by omega) (by omega)) (by omega)
    have harith : p + (j + 1) = (p + 1) + j := by omega
    simp only [fetchPages, hl, hne, hok, if_true, if_false, ite_false, ite_true]
    rw [ih]
    simp [listingsUpTo, pageRange, pageListings, hl, List.append_assoc, harith,
      Nat.succ_sub_succ]

/-- Appending the next page number extends a page range. -/
theorem pageRange_snoc : ∀ (j p : Nat), pageRange p j ++ [p + j] = pageRange p (j + 1)
  | 0, p => by simp [pageRange]
  | j + 1, p => by
    show (p :: pageRange (p + 1) j) ++ [p + (j + 1)] = p :: pageRange (p + 1) (j + 1)
    rw [List.cons_append, show p + (j + 1) = (p + 1) + j by omega,
      pageRange_snoc j (p + 1)]

/-- Membership in a page range is the half-open interval `[p, p + j)`. -/
theorem mem_pageRange : ∀ (j p k : Nat), k ∈ pageRange p j ↔ p ≤ k ∧ k < p + j
  | 0, p, k => by simp [pageRange]
  | j + 1, p, k => by
    simp [pageRange, mem_pageRange j (p + 1) k]
    omega

/-- Each page number occurs at most once in a page range. -/
theorem count_pageRange :
    ∀ (j p k : Nat), List.count k (pageRange p j) = if p ≤ k ∧ k < p + j then 1 else 0
  | 0, p, k => by
    have h : ¬(p ≤ k ∧ k < p) := by omega
    simp [pageRange, h]
  | j + 1, p, k => by
    simp only [pageRange, List.count_cons, count_pageRange j (p + 1) k, beq_iff_eq]
    split_ifs <;> omega

/-- A page whose records are a good prefix followed by a raising record
keeps exactly the prefix's listings and reports failure. -/
theorem processRecords_prefix :
    ∀ (pre : List RawJob) (bad : RawJob) (rest : List RawJob),
      (∀ j ∈ pre, (buildListing j).isSome) → buildListing bad = none →
      processRecords (pre ++ bad :: rest) = (pre.filterMap buildListing, false)
  | [], bad, rest, _, hbad => by simp [processRecords, hbad]
  | j :: pre, bad, rest, hpre, hbad => by
    have hj := hpre j (List.mem_cons_self _ _)
    obtain ⟨li, hli⟩ := Option.isSome_iff_exists.mp hj
    have ih := processRecords_prefix pre bad rest
      (fun a ha => hpre a (List.mem_cons_of_mem _ ha)) hbad
    simp [processRecords, hli, ih, List.filterMap_cons]

/-- Inversion of a successful `buildListing`: the skills string and the
description defaulted without raising, and every field of the produced
listing is the corresponding extraction. -/
theorem buildListing_some (job : RawJob) (li : Listing)
    (h : buildListing job = some li) :
    ∃ sk d, skill_str (job.specialty.getD []) = some sk ∧
      getDesc job.description = some d ∧
      li = { title := job.jobName
             company := job.custName
             region := job.jobAddrNoDesc
             salaryText := job.salaryDesc
             education := job.optionEdu
             experience := job.periodDesc
             skillsText := sk
             descriptionPreview := pySlice d 100 ++ "..."
             url :=
               match job.link with
               | none => ""
               | some dict =>
                 if dict.isEmpty then ""
                 else "https:" ++ pyStr (dictGet dict "job") } := by
  unfold buildListing at h
  cases hs : skill_str (job.specialty.getD []) with
  | none => rw [hs] at h; exact absurd h (by simp)
  | some sk =>
    cases hd : getDesc job.description with
    | none => rw [hs, hd] at h; exact absurd h (by simp)
    | some d =>
      rw [hs, hd] at h
      exact ⟨sk, d, rfl, rfl, (Option.some_injective _ h).symm⟩

/-- The length of a Python slice `s[:n]`. -/
theorem pySlice_length (s : String) (n : Nat) :
    (pySlice s n).length = min n s.length := by
  show (s.data.take n).length = min n s.data.length
  exact List.length_take n s.data

/-- A slice at least as long as the string is the string. -/
theorem pySlice_of_le (s : String) (n : Nat) (h : s.length ≤ n) :
    pySlice s n = s := by
  simp only [pySlice, List.take_of_length_le h]

/-! ### Claims -/

/-- C1: `parse_salary` returns absent when the text contains the
negotiable marker `面議` or an hourly/daily marker `時薪`/`日薪`;
otherwise, after removing commas, exactly two maximal digit runs give
their arithmetic mean, exactly one gives that value, and zero or more
than two give absent; in particular
`parse("月薪30,000~50,000元") = 40000`, `parse("40000元以上") = 40000`,
and `parse("面議")`, `parse("時薪150元")`, `parse("待遇優")` are absent. -/
theorem C1_parse_salary_spec :
    (∀ s : String, hasMarker s = true → parse_salary s = none) ∧
    (∀ s : String, hasMarker s = false →
      parse_salary s =
        match digitRuns (removeCommas s).data with
        | [a, b] => some (((runVal a : ℚ) + (runVal b : ℚ)) / 2)
        | [a] => some ((runVal a : ℚ))
        | _ => none) ∧
    parse_salary "月薪30,000~50,000元" = some 40000 ∧
    parse_salary "40000元以上" = some 40000 ∧
    parse_salary "面議" = none ∧
    parse_salary "時薪150元" = none ∧
    parse_salary "待遇優" = none := by
  refine ⟨parse_salary_of_marker, parse_salary_eval, ?_, ?_, ?_, ?_, ?_⟩
  · rw [parse_salary_eval _ (by decide)]
    rw [(by decide : digitRuns (removeCommas "月薪30,000~50,000元").data =
      [['3', '0', '0', '0', '0'], ['5', '0', '0', '0', '0']])]
    show some (((runVal ['3', '0', '0', '0', '0'] : ℚ) +
      (runVal ['5', '0', '0', '0', '0'] : ℚ)) / 2) = some 40000
    rw [(by decide : runVal ['3', '0', '0', '0', '0'] = 30000),
        (by decide : runVal ['5', '0', '0', '0', '0'] = 50000)]
    norm_num
  · rw [parse_salary_eval _ (by decide)]
    rw [(by decide : digitRuns (removeCommas "40000元以上").data =
      [['4', '0', '0', '0', '0']])]
    show some ((runVal ['4', '0', '0', '0', '0'] : ℚ)) = some 40000
    rw [(by decide : runVal ['4', '0', '0', '0', '0'] = 40000)]
    norm_num
  · exact parse_salary_of_marker _ (by decide)
  · exact parse_salary_of_marker _ (by decide)
  · rw [parse_salary_eval _ (by decide)]
    rw [(by decide : digitRuns (removeCommas "待遇優").data = [])]

/-- C1 witness: the marker branch evaluated at the daily-wage string
`日薪1000元`. -/
theorem C1_parse_salary_spec_witness :
    hasMarker "日薪1000元" = true ∧ parse_salary "日薪1000元" = none :=
  ⟨by decide, C1_parse_salary_spec.1 "日薪1000元" (by decide)⟩

/-- C6: for every marker-free salary string whose comma-stripped text has
exactly two maximal digit runs `a` and `b`, `parse_salary` returns exactly
`(a + b) / 2` (Python's true division, exact in `ℚ`). -/
theorem C6_two_runs_exact_mean (s : String) (a b : List Char)
    (hm : hasMarker s = false)
    (hruns : digitRuns (removeCommas s).data = [a, b]) :
    parse_salary s = some (((runVal a : ℚ) + (runVal b : ℚ)) / 2) := by
  rw [parse_salary_eval s hm, hruns]

/-- C6 witness: the range string `月薪30,000~50,000元` evaluates to the
exact mean `40000`. -/
theorem C6_two_runs_exact_mean_witness :
    hasMarker "月薪30,000~50,000元" = false ∧
    parse_salary "月薪30,000~50,000元" = some 40000 := by
  refine ⟨by decide, ?_⟩
  have h := C6_two_runs_exact_mean "月薪30,000~50,000元"
    ['3', '0', '0', '0', '0'] ['5', '0', '0', '0', '0'] (by decide) (by decide)
  rw [h, (by decide : runVal ['3', '0', '0', '0', '0'] = 30000),
      (by decide : runVal ['5', '0', '0', '0', '0'] = 50000)]
  norm_num

/-- C7: for every description string `d` of a built listing,
`descriptionPreview` is the first 100 characters of `d` followed by the
marker `"..."` when `d` is longer than 100 characters (exactly 100 content
characters), and is `d` followed by the still-appended marker when `d` has
at most 100 characters. -/
theorem C7_description_preview (job : RawJob) (li : Listing) (d : String)
    (hd : job.description = some (some d)) (h : buildListing job = some li) :
    (100 < d.length →
      li.descriptionPreview = pySlice d 100 ++ "..." ∧
      (pySlice d 100).length = 100) ∧
    (d.length ≤ 100 → li.descriptionPreview = d ++ "...") := by
  obtain ⟨sk, d', hs, hd', rfl⟩ := buildListing_some job li h
  rw [hd] at hd'
  simp only [getDesc, Option.some.injEq] at hd'
  subst hd'
  constructor
  · intro hlen
    refine ⟨rfl, ?_⟩
    rw [pySlice_length]
    omega
  · intro hlen
    show pySlice d 100 ++ "..." = d ++ "..."
    rw [pySlice_of_le d 100 (by omega)]

/-- C7 witness: a 101-character description yields a preview of exactly
100 content characters plus the marker. -/
theorem C7_description_preview_witness :
    100 < longDesc.length ∧
    (buildListing longDescJob).map (fun li => li.descriptionPreview) =
      some (pySlice longDesc 100 ++ "...") ∧
    (pySlice longDesc 100).length = 100 := by
  refine ⟨by decide, ?_⟩
  cases hb : buildListing longDescJob with
  | none => exact absurd hb (by decide)
  | some li =>
    have h := (C7_description_preview longDescJob li longDesc rfl hb).1 (by decide)
    refine ⟨?_, h.2⟩
    simp only [Option.map_some', h.1]

/-- C8: the derived region code is the first 3 characters of `regionText`
(length exactly 3) when `regionText` has at least 3 characters, and the
full string when shorter. -/
theorem C8_region_code (x : String) :
    (3 ≤ x.length →
      (regionCode x).length = 3 ∧ (regionCode x).data = x.data.take 3) ∧
    (x.length < 3 → regionCode x = x) := by
  constructor
  · intro h
    refine ⟨?_, rfl⟩
    rw [show regionCode x = pySlice x 3 from rfl, pySlice_length]
    omega
  · intro h
    exact pySlice_of_le x 3 (by omega)

/-- C8 witness: evaluated at the six-character region text
`台北市信義區`. -/
theorem C8_region_code_witness :
    3 ≤ ("台北市信義區" : String).length ∧
    (regionCode "台北市信義區").length = 3 ∧
    (regionCode "台北市信義區").data = ("台北市信義區" : String).data.take 3 := by
  refine ⟨by decide, ?_, ?_⟩
  · exact ((C8_region_code "台北市信義區").1 (by decide)).1
  · exact ((C8_region_code "台北市信義區").1 (by decide)).2

/-- C9: joining the skill-descriptor list `["Python","SQL"]` gives
`"Python,SQL"` and tokenizing it yields `["Python","SQL"]` in order; an
empty or absent source list gives the sentinel `不拘`, whose tokenization
is empty. -/
theorem C9_skill_round_trip :
    skill_str [some "Python", some "SQL"] = some "Python,SQL" ∧
    splitSkills "Python,SQL" = ["Python", "SQL"] ∧
    skill_str [] = some "不拘" ∧
    (buildListing emptyJob).map (fun li => li.skillsText) = some "不拘" ∧
    splitSkills "不拘" = [] := by decide

/-- C3: when pages `1..n-1` are good and page `n` answers with `data.list`
absent or empty, the fetch returns exactly the listings of pages `1..n-1`,
requests exactly pages `1..n` (none after `n`), and shows no error. -/
theorem C3_empty_page_stops (oracle : Nat → PageResp) (pages n : Nat)
    (h1 : 1 ≤ n) (h2 : n ≤ pages)
    (hgood : ∀ k, 1 ≤ k → k < n → goodPage oracle k)
    (hempty : oracle n = PageResp.resp none ∨
      oracle n = PageResp.resp (some none) ∨
      oracle n = PageResp.resp (some (some []))) :
    fetch_104_jobs oracle pages =
      ⟨listingsUpTo oracle 1 (n - 1), pageRange 1 n, false⟩ ∧
    ∀ m, n < m → m ∉ (fetch_104_jobs oracle pages).requested := by
  have hpeel := fetchPages_peel oracle (n - 1) pages 1
    (fun k hk1 hk2 => hgood k hk1 (by omega)) (by omega)
  have hpj : 1 + (n - 1) = n := by omega
  obtain ⟨m, hm⟩ : ∃ m, pages - (n - 1) = m + 1 := ⟨pages - (n - 1) - 1, by omega⟩
  have hstop : fetchPages oracle (pages - (n - 1)) (1 + (n - 1)) =
      ⟨[], [n], false⟩ := by
    rw [hm, hpj]
    rcases hempty with h | h | h <;> simp [fetchPages, h]
  have hsnoc : pageRange 1 (n - 1) ++ [n] = pageRange 1 n := by
    have hx := pageRange_snoc (n - 1) 1
    rw [hpj] at hx
    rw [hx, show n - 1 + 1 = n by omega]
  have hmain : fetch_104_jobs oracle pages =
      ⟨listingsUpTo oracle 1 (n - 1), pageRange 1 n, false⟩ := by
    rw [fetch_104_jobs, hpeel, hstop]
    simp [hsnoc]
  refine ⟨hmain, fun m' hm' => ?_⟩
  rw [hmain]
  show m' ∉ pageRange 1 n
  simp only [mem_pageRange]
  omega

/-- C3 witness: page 2 of 3 empty yields only page-1 listings, pages 1–2
requested, page 3 never requested, no error shown. -/
theorem C3_empty_page_stops_witness :
    fetch_104_jobs oracleEmptyPage2 3 =
      ⟨listingsUpTo oracleEmptyPage2 1 1, pageRange 1 2, false⟩ ∧
    3 ∉ (fetch_104_jobs oracleEmptyPage2 3).requested := by
  have h := C3_empty_page_stops oracleEmptyPage2 3 2 (by omega) (by omega)
    (fun k hk1 hk2 => by
      have hk : k = 1 := by omega
      subst hk
      exact ⟨[okJob], rfl, by decide, by decide⟩)
    (Or.inr (Or.inr rfl))
  exact ⟨h.1, h.2 3 (by omega)⟩

/-- C2 counterexample: on a fetch of 3 pages where processing page 2
raises at its second record, the returned collection is NOT the listings
of page 1 alone — the first record of page 2 is also kept. -/
theorem C2_error_abort_counterexample :
    (processRecords [okJob, badJob, okJob]).2 = false ∧
    (fetch_104_jobs oracleBadPage2 3).errorShown = true ∧
    (fetch_104_jobs oracleBadPage2 3).listings ≠
      listingsUpTo oracleBadPage2 1 1 := by
  decide

/-- C2 amended: when the RETRIEVAL of page `n` raises (the error occurs
before any record of page `n` is processed), the fetch returns exactly the
listings of pages `1..n-1`, requests page `n` exactly once (no retry),
requests nothing after `n`, surfaces the error as a message
(`errorShown`), and returns normally. -/
theorem C2_retrieval_error_aborts (oracle : Nat → PageResp) (pages n : Nat)
    (h1 : 1 ≤ n) (h2 : n ≤ pages)
    (hgood : ∀ k, 1 ≤ k → k < n → goodPage oracle k)
    (herr : oracle n = PageResp.err) :
    fetch_104_jobs oracle pages =
      ⟨listingsUpTo oracle 1 (n - 1), pageRange 1 n, true⟩ ∧
    List.count n (fetch_104_jobs oracle pages).requested = 1 ∧
    ∀ m, n < m → m ∉ (fetch_104_jobs oracle pages).requested := by
  have hpeel := fetchPages_peel oracle (n - 1) pages 1
    (fun k hk1 hk2 => hgood k hk1 (by omega)) (by omega)
  have hpj : 1 + (n - 1) = n := by omega
  obtain ⟨m, hm⟩ : ∃ m, pages - (n - 1) = m + 1 := ⟨pages - (n - 1) - 1, by omega⟩
  have hstop : fetchPages oracle (pages - (n - 1)) (1 + (n - 1)) =
      ⟨[], [n], true⟩ := by
    rw [hm, hpj]
    simp [fetchPages, herr]
  have hsnoc : pageRange 1 (n - 1) ++ [n] = pageRange 1 n := by
    have hx := pageRange_snoc (n - 1) 1
    rw [hpj] at hx
    rw [hx, show n - 1 + 1 = n by omega]
  have hmain : fetch_104_jobs oracle pages =
      ⟨listingsUpTo oracle 1 (n - 1), pageRange 1 n, true⟩ := by
    rw [fetch_104_jobs, hpeel, hstop]
    simp [hsnoc]
  refine ⟨hmain, ?_, fun m' hm' => ?_⟩
  · rw [hmain]
    show List.count n (pageRange 1 n) = 1
    rw [count_pageRange n 1 n, if_pos (show 1 ≤ n ∧ n < 1 + n by omega)]
  · rw [hmain]
    show m' ∉ pageRange 1 n
    simp only [mem_pageRange]
    omega

/-- C2 amended witness: page 2 of 3 raising a retrieval error yields only
page-1 listings, one request for page 2, none for page 3. -/
theorem C2_retrieval_error_aborts_witness :
    fetch_104_jobs oracleErrPage2 3 =
      ⟨listingsUpTo oracleErrPage2 1 1, pageRange 1 2, true⟩ ∧
    List.count 2 (fetch_104_jobs oracleErrPage2 3).requested = 1 ∧
    3 ∉ (fetch_104_jobs oracleErrPage2 3).requested := by
  have h := C2_retrieval_error_aborts oracleErrPage2 3 2 (by omega) (by omega)
    (fun k hk1 hk2 => by
      have hk : k = 1 := by omega
      subst hk
      exact ⟨[okJob], rfl, by decide, by decide⟩)
    rfl
  exact ⟨h.1, h.2.1, h.2.2 3 (by omega)⟩

/-- C10: error abort is not atomic at page granularity — when page `n`'s
records are a buildable prefix `pre` followed by a raising record, the
returned collection is the listings of pages `1..n-1` followed by exactly
the listings built from `pre`, with the error surfaced. -/
theorem C10_partial_page_prefix_kept (oracle : Nat → PageResp) (pages n : Nat)
    (h1 : 1 ≤ n) (h2 : n ≤ pages)
    (hgood : ∀ k, 1 ≤ k → k < n → goodPage oracle k)
    (pre : List RawJob) (bad : RawJob) (rest : List RawJob)
    (hl : oracle n = PageResp.resp (some (some (pre ++ bad :: rest))))
    (hpre : ∀ j ∈ pre, (buildListing j).isSome)
    (hbad : buildListing bad = none) :
    fetch_104_jobs oracle pages =
      ⟨listingsUpTo oracle 1 (n - 1) ++ pre.filterMap buildListing,
       pageRange 1 n, true⟩ := by
  have hpeel := fetchPages_peel oracle (n - 1) pages 1
    (fun k hk1 hk2 => hgood k hk1 (by omega)) (by omega)
  have hpj : 1 + (n - 1) = n := by omega
  obtain ⟨m, hm⟩ : ∃ m, pages - (n - 1) = m + 1 := ⟨pages - (n - 1) - 1, by omega⟩
  have hproc := processRecords_prefix pre bad rest hpre hbad
  have hne : pre ++ bad :: rest ≠ [] := by simp
  have hstop : fetchPages oracle (pages - (n - 1)) (1 + (n - 1)) =
      ⟨pre.filterMap buildListing, [n], true⟩ := by
    rw [hm, hpj]
    simp [fetchPages, hl, hne, hproc]
  have hsnoc : pageRange 1 (n - 1) ++ [n] = pageRange 1 n := by
    have hx := pageRange_snoc (n - 1) 1
    rw [hpj] at hx
    rw [hx, show n - 1 + 1 = n by omega]
  rw [fetch_104_jobs, hpeel, hstop]
  simp [hsnoc]

/-- C10 witness: page 2 of 3 holding `[okJob, badJob, okJob]` yields the
page-1 listings followed by the listing of page 2's first record only. -/
theorem C10_partial_page_prefix_kept_witness :
    fetch_104_jobs oracleBadPage2 3 =
      ⟨listingsUpTo oracleBadPage2 1 1 ++ [okJob].filterMap buildListing,
       pageRange 1 2, true⟩ :=
  C10_partial_page_prefix_kept oracleBadPage2 3 2 (by omega) (by omega)
    (fun k hk1 hk2 => by
      have hk : k = 1 := by omega
      subst hk
      exact ⟨[okJob], rfl, by decide, by decide⟩)
    [okJob] badJob [okJob] rfl (by decide) (by decide)

/-- C4 counterexample: a record with `jobName` absent builds a listing
whose title is Python `None` (modelled `none`), not the empty string. -/
theorem C4_null_title_counterexample :
    (buildListing emptyJob).map (fun li => li.title) = some none ∧
    (buildListing emptyJob).map (fun li => li.title) ≠ some (some "") := by
  decide

/-- C4 amended: every built Listing structurally contains all nine field
keys (the record shape is total), and `title`/`company` are the raw
`jobName`/`custName` values passed through unchanged — so they are `None`
(absent), not an empty string, when the source omits the field. -/
theorem C4_title_company_passthrough (job : RawJob) (li : Listing)
    (h : buildListing job = some li) :
    li.title = job.jobName ∧ li.company = job.custName := by
  obtain ⟨sk, d, hs, hd, rfl⟩ := buildListing_some job li h
  exact ⟨rfl, rfl⟩

/-- C4 amended witness: evaluated on the fully populated record. -/
theorem C4_title_company_passthrough_witness :
    (buildListing okJob).map (fun li => li.title) = some okJob.jobName ∧
    (buildListing okJob).map (fun li => li.company) = some okJob.custName := by
  cases hb : buildListing okJob with
  | none => exact absurd hb (by decide)
  | some li =>
    have h := C4_title_company_passthrough okJob li hb
    simp [Option.map_some', h.1, h.2]

/-- C5 counterexample: a record whose link object exists but lacks the
job path yields url `"https:None"` — non-empty, contradicting the claimed
empty string. -/
theorem C5_link_without_job_counterexample :
    (buildListing noJobLinkJob).map (fun li => li.url) = some "https:None" ∧
    (buildListing noJobLinkJob).map (fun li => li.url) ≠ some "" := by
  decide

/-- C5 amended: `url` is empty exactly when the link object is absent or
falsy (empty); when the link is truthy it is `"https:"` prefixed onto
`str(link.get('job'))` — the source-relative job path when present, and
the string `"https:None"` (not empty) when the link lacks the job path. -/
theorem C5_url_construction (job : RawJob) (li : Listing)
    (h : buildListing job = some li) :
    (job.link = none → li.url = "") ∧
    (∀ d, job.link = some d → d = [] → li.url = "") ∧
    (∀ d p, job.link = some d → d ≠ [] → dictGet d "job" = some p →
      li.url = "https:" ++ p) ∧
    (∀ d, job.link = some d → d ≠ [] → dictGet d "job" = none →
      li.url = "https:None") := by
  obtain ⟨sk, dd, hs, hd, rfl⟩ := buildListing_some job li h
  refine ⟨?_, ?_, ?_, ?_⟩
  · intro hnl
    simp only [hnl]
  · intro d hld hde
    subst hde
    simp only [hld, List.isEmpty_nil, if_true, ite_true]
  · intro d p hld hdne hp
    have hie : d.isEmpty = false := by
      cases d with
      | nil => exact absurd rfl hdne
      | cons a l => rfl
    simp only [hld, hie, if_false, ite_false, hp, pyStr]
    rfl
  · intro d hld hdne hp
    have hie : d.isEmpty = false := by
      cases d with
      | nil => exact absurd rfl hdne
      | cons a l => rfl
    simp only [hld, hie, if_false, ite_false, hp, pyStr]
    decide

/-- C5 amended witness: the populated record's link carries a job path,
giving the scheme-prefixed absolute URL. -/
theorem C5_url_construction_witness :
    (buildListing okJob).map (fun li => li.url) =
      some ("https:" ++ "//www.104.com.tw/job/abcde") := by
  cases hb : buildListing okJob with
  | none => exact absurd hb (by decide)
  | some li =>
    have h := (C5_url_construction okJob li hb).2.2.1
      [("job", "//www.104.com.tw/job/abcde")] "//www.104.com.tw/job/abcde"
      rfl (by decide) (by decide)
    simp [h]

end App104
